import Mathlib

/-!
Verification of the hidden-service scan worker pool
(`tornet/modules/hidden_service_scanner.py`).

The Python code is shallowly embedded: Python strings are Lean `String`s and
the Python string primitives used by the scanner (`str.strip`, `str.endswith`,
`str.startswith`, substring membership `in`, lexicographic comparison) are
modelled as executable functions on the underlying character lists.  The
network and the HTML parser are modelled as oracles (`NetOutcome`,
`ParseOutcome`) describing what the environment does for one request; the
worker pool is a small-step transition system over an explicit pool state.
-/

/- ### Python string primitives, modelled on character lists -/

/-- Model of Python `str.strip()`: drop whitespace from both ends. -/
def pyStrip (s : String) : String :=
  String.mk (((s.data.dropWhile Char.isWhitespace).reverse.dropWhile Char.isWhitespace).reverse)

/-- Model of Python `str.endswith(suf)`. -/
def pyEndsWith (s suf : String) : Bool :=
  suf.data.isSuffixOf s.data

/-- Model of Python `str.startswith(pre)`. -/
def pyStartsWith (s p : String) : Bool :=
  p.data.isPrefixOf s.data

/-- Helper for Python substring membership: is `pat` a contiguous infix of `l`? -/
def charsIn (pat : List Char) : List Char → Bool
  | [] => pat.isEmpty
  | c :: rest => pat.isPrefixOf (c :: rest) || charsIn pat rest

/-- Model of Python `pat in s` on strings. -/
def strIn (pat s : String) : Bool :=
  charsIn pat.data s.data

/- ### Data model: `ScanResult` (the per-target result dictionary) -/

/-- The result dictionary built by `_scan_domain` (and, for the worker-level
error handler, the `{'status': 'error', 'error': str(e)}` dictionary; fields
absent from that dictionary are `none`/`0` here). -/
structure ScanResult where
  status : String
  response_code : Option Nat
  title : Option String
  server : Option String
  content_type : Option String
  links : Nat
  scan_time : Nat
  error : Option String
deriving DecidableEq, Repr

/-- The dictionary `_scan_domain` initialises before issuing the request
(`status: 'inactive'`, everything else null/zero, `scan_time` the current
clock reading). -/
def initResult (now : Nat) : ScanResult :=
  { status := "inactive", response_code := none, title := none, server := none,
    content_type := none, links := 0, scan_time := now, error := none }

/-- The dictionary the worker stores when `_scan_domain` raised an unexpected
exception: `{'status': 'error', 'error': str(e)}`. -/
def errorResult (msg : String) : ScanResult :=
  { status := "error", response_code := none, title := none, server := none,
    content_type := none, links := 0, scan_time := 0, error := some msg }

/- ### Environment oracles for one HTTP GET -/

/-- What `BeautifulSoup(response.text, 'html.parser')` would do for one
response body: succeed, yielding the raw text of the title tag (if a title tag
exists) and the number of anchor tags, or raise an exception with a message. -/
inductive ParseOutcome where
  | ok : Option String → Nat → ParseOutcome
  | fail : String → ParseOutcome
deriving DecidableEq, Repr

/-- What `self.session.get(url, timeout=...)` does for one target: return a
response (status code, optional `Server` and `Content-Type` headers, and the
behaviour of HTML parsing on the body), raise a
`requests.exceptions.RequestException`, or raise some other exception. -/
inductive NetOutcome where
  | ok : Nat → Option String → Option String → ParseOutcome → NetOutcome
  | requestError : NetOutcome
  | raised : String → NetOutcome
deriving DecidableEq, Repr

/- ### `_scan_domain` -/

/-- Embedding of `HiddenServiceScanner._scan_domain`.  `now` is the clock
reading stored into `scan_time`; `net` is what the network does for this URL.
`Except.error msg` represents an exception propagating out of `_scan_domain`
(to be caught at the worker boundary). -/
def scan_domain (now : Nat) (net : NetOutcome) : Except String ScanResult :=
  match net with
  | NetOutcome.requestError => Except.ok (initResult now)
  | NetOutcome.raised msg => Except.error msg
  | NetOutcome.ok code server ct parse =>
      let r := { initResult now with
                 response_code := some code,
                 status := "active",
                 server := some (server.getD "Unknown"),
                 content_type := some (ct.getD "Unknown") }
      if strIn "text/html" (ct.getD "Unknown") then
        match parse with
        | ParseOutcome.ok rawTitle nLinks =>
            Except.ok { r with
              title := some (match rawTitle with
                             | some t => pyStrip t
                             | none => "No title"),
              links := nLinks }
        | ParseOutcome.fail msg => Except.error msg
      else Except.ok r

/-- The result a worker records for one target: `_scan_domain`'s result, or,
when an exception escaped it, the worker's error dictionary. -/
def worker_process (now : Nat) (net : NetOutcome) : ScanResult :=
  match scan_domain now net with
  | Except.ok r => r
  | Except.error msg => errorResult msg

/- ### `_load_onion_domains` -/

/-- Embedding of the per-line body of `_load_onion_domains`: strip the line,
keep it only when non-empty and ending in `.onion`, and prefix `http://`
unless it already starts with `http`.  Returns the enqueued target, or `none`
when the line is skipped. -/
def processLine (line : String) : Option String :=
  let domain := pyStrip line
  if domain ≠ "" ∧ pyEndsWith domain ".onion" then
    some (if pyStartsWith domain "http" then domain else "http://" ++ domain)
  else none

/-- Embedding of `_load_onion_domains`' loop over the lines of the file. -/
def load_onion_domains (lines : List String) : List String :=
  lines.filterMap processLine

/- ### `start`'s setup phase -/

/-- Observable effects of `start` up to the point where workers would begin:
whether `start` returned `False`, `total_count`, the queue contents, how many
worker threads were started, and the results map at that moment. -/
structure StartOutcome where
  ok : Bool
  totalCount : Nat
  queued : List String
  workersStarted : Nat
  results : List (String × ScanResult)
deriving DecidableEq, Repr

/-- Embedding of `start`'s setup: `_load_onion_domains` reads the input file
(`none` when `os.path.exists` is false), and on failure `start` returns
`False` before any worker thread is created. -/
def start_setup (file : Option (List String)) (threads : Nat) : StartOutcome :=
  match file with
  | none =>
      { ok := false, totalCount := 0, queued := [], workersStarted := 0, results := [] }
  | some lines =>
      let domains := load_onion_domains lines
      { ok := true, totalCount := domains.length, queued := domains,
        workersStarted := threads, results := [] }

example : load_onion_domains ["abc.onion", "", "def.onion"] =
    ["http://abc.onion", "http://def.onion"] := by decide

/- ### The worker pool as a small-step transition system -/

/-- Phase of one worker thread: about to attempt a dequeue, holding a dequeued
target (scan in progress), or exited. -/
inductive WPhase where
  | idle : WPhase
  | busy : String → WPhase
  | done : WPhase
deriving DecidableEq, Repr

/-- Shared state of the pool: the FIFO work queue, the mutex-guarded results
dictionary (association list in insertion order), and the worker threads. -/
structure PoolState where
  queue : List String
  results : List (String × ScanResult)
  workers : List WPhase
deriving DecidableEq, Repr

/-- Python dictionary assignment `results[k] = v`: replace the binding in
place when the key is present, append it otherwise. -/
def dictInsert (m : List (String × ScanResult)) (k : String) (v : ScanResult) :
    List (String × ScanResult) :=
  if m.any (fun p => p.1 == k) then
    m.map (fun p => if p.1 == k then (k, v) else p)
  else m ++ [(k, v)]

/-- One atomic action of the pool, with the per-target network behaviour given
by the oracle `net` and the per-target clock by `clk`.  A worker either pops
the head of the queue (`queue.get(block=False)` succeeding), observes the
queue empty and exits, or finishes its scan and stores the result under the
lock.  The scan itself (`worker_process`) is folded into the `finish` action;
only its final write is shared-state visible. -/
inductive Step (net : String → NetOutcome) (clk : String → Nat) :
    PoolState → PoolState → Prop where
  | pop (t : String) (rest : List String) (res : List (String × ScanResult))
      (pre post : List WPhase) :
      Step net clk
        ⟨t :: rest, res, pre ++ WPhase.idle :: post⟩
        ⟨rest, res, pre ++ WPhase.busy t :: post⟩
  | popEmpty (res : List (String × ScanResult)) (pre post : List WPhase) :
      Step net clk
        ⟨[], res, pre ++ WPhase.idle :: post⟩
        ⟨[], res, pre ++ WPhase.done :: post⟩
  | finish (t : String) (q : List String) (res : List (String × ScanResult))
      (pre post : List WPhase) :
      Step net clk
        ⟨q, res, pre ++ WPhase.busy t :: post⟩
        ⟨q, dictInsert res t (worker_process (clk t) (net t)), pre ++ WPhase.idle :: post⟩

/-- Initial pool state: every target enqueued (in file order) before the `n`
worker threads start, results empty, all workers about to dequeue. -/
def initState (targets : List String) (n : Nat) : PoolState :=
  ⟨targets, [], List.replicate n WPhase.idle⟩

/-- Pool states reachable from the initial state by interleaved worker
actions. -/
def Reachable (net : String → NetOutcome) (clk : String → Nat)
    (targets : List String) (n : Nat) (s : PoolState) : Prop :=
  Relation.ReflTransGen (Step net clk) (initState targets n) s

/-- Targets currently held by in-flight workers. -/
def busyTargets (ws : List WPhase) : List String :=
  ws.filterMap (fun w => match w with
    | WPhase.busy t => some t
    | _ => none)

/-- All worker threads have exited. -/
def allDone (ws : List WPhase) : Prop :=
  ∀ w ∈ ws, w = WPhase.done

/-- The exit condition of the monitoring loop in `start`: the loop leaves
either because `processed`, i.e. `len(self.results)`, has reached
`total_count`, or through the `break` when the queue is empty and no worker
thread is alive. -/
def completionCond (total : Nat) (s : PoolState) : Prop :=
  total ≤ s.results.length ∨ (s.queue = [] ∧ allDone s.workers)

/- ### The pool invariant -/

/-- Invariant of the pool: the queue, the in-flight targets and the recorded
keys partition the original target list; every recorded binding is the one the
worker computed for its key; and the queue is empty once every worker has
exited. -/
structure PoolInv (net : String → NetOutcome) (clk : String → Nat)
    (targets : List String) (s : PoolState) : Prop where
  perm : (s.queue ++ busyTargets s.workers ++ s.results.map Prod.fst).Perm targets
  vals : ∀ p ∈ s.results, p.2 = worker_process (clk p.1) (net p.1)
  qdone : allDone s.workers → s.queue = []

/- ### Invariant lemmas -/

theorem busyTargets_append (a b : List WPhase) :
    busyTargets (a ++ b) = busyTargets a ++ busyTargets b :=
  List.filterMap_append a b _

theorem busyTargets_cons_idle (a : List WPhase) :
    busyTargets (WPhase.idle :: a) = busyTargets a := rfl

theorem busyTargets_cons_done (a : List WPhase) :
    busyTargets (WPhase.done :: a) = busyTargets a := rfl

theorem busyTargets_cons_busy (t : String) (a : List WPhase) :
    busyTargets (WPhase.busy t :: a) = t :: busyTargets a := rfl

theorem busyTargets_replicate_idle (n : Nat) :
    busyTargets (List.replicate n WPhase.idle) = [] := by
  induction n with
  | zero => rfl
  | succ k ih => simpa [List.replicate_succ, busyTargets_cons_idle] using ih

theorem busyTargets_of_allDone {ws : List WPhase} (h : allDone ws) :
    busyTargets ws = [] := by
  apply List.filterMap_eq_nil_iff.mpr
  intro w hw
  rw [h w hw]

theorem dictInsert_of_not_mem (m : List (String × ScanResult)) (k : String) (v : ScanResult)
    (h : k ∉ m.map Prod.fst) : dictInsert m k v = m ++ [(k, v)] := by
  unfold dictInsert
  rw [if_neg]
  intro hc
  rcases List.any_eq_true.mp hc with ⟨p, hp, hpk⟩
  exact h (List.mem_map.mpr ⟨p, hp, eq_of_beq hpk⟩)

theorem not_allDone_of_mem_idle {ws : List WPhase} (h : WPhase.idle ∈ ws) : ¬ allDone ws := by
  intro hall
  exact WPhase.noConfusion (hall WPhase.idle h)

theorem not_allDone_of_mem_busy {ws : List WPhase} {t : String} (h : WPhase.busy t ∈ ws) :
    ¬ allDone ws := by
  intro hall
  exact WPhase.noConfusion (hall (WPhase.busy t) h)

/-- The pool invariant holds initially (provided at least one worker thread is
started). -/
theorem poolInv_init (net : String → NetOutcome) (clk : String → Nat)
    (targets : List String) (n : Nat) (hn : 0 < n) :
    PoolInv net clk targets (initState targets n) := by
  refine ⟨?_, ?_, ?_⟩
  · simp [initState, busyTargets_replicate_idle]
  · intro p hp
    simp [initState] at hp
  · intro hall
    exfalso
    apply not_allDone_of_mem_idle _ hall
    simp [initState, List.mem_replicate]
    omega

/-- Every pool action preserves the invariant when the enqueued targets are
unique. -/
theorem poolInv_step (net : String → NetOutcome) (clk : String → Nat)
    (targets : List String) (hnd : targets.Nodup) {s s2 : PoolState}
    (hinv : PoolInv net clk targets s) (hstep : Step net clk s s2) :
    PoolInv net clk targets s2 := by
  cases hstep with
  | pop t rest res pre post =>
      obtain ⟨hp, hv, _⟩ := hinv
      simp only [busyTargets_append, busyTargets_cons_idle, busyTargets_cons_busy,
        List.cons_append, List.append_assoc] at hp
      refine ⟨?_, hv, ?_⟩
      · simp only [busyTargets_append, busyTargets_cons_busy, List.append_assoc]
        have h1 : (busyTargets pre ++ t :: (busyTargets post ++ res.map Prod.fst)).Perm
            (t :: (busyTargets pre ++ (busyTargets post ++ res.map Prod.fst))) :=
          List.perm_middle
        have h2 := h1.append_left rest
        have h3 : (rest ++ t :: (busyTargets pre ++ (busyTargets post ++ res.map Prod.fst))).Perm
            (t :: (rest ++ (busyTargets pre ++ (busyTargets post ++ res.map Prod.fst)))) :=
          List.perm_middle
        exact (h2.trans h3).trans hp
      · intro hall
        exact absurd hall (not_allDone_of_mem_busy (t := t) (by simp))
  | popEmpty res pre post =>
      obtain ⟨hp, hv, _⟩ := hinv
      simp only [busyTargets_append, busyTargets_cons_idle, busyTargets_cons_done] at hp
      refine ⟨?_, hv, fun _ => rfl⟩
      simp only [busyTargets_append, busyTargets_cons_done, List.append_assoc]
      simpa using hp
  | finish t q res pre post =>
      obtain ⟨hp, hv, _⟩ := hinv
      simp only [busyTargets_append, busyTargets_cons_idle, busyTargets_cons_busy,
        List.append_assoc] at hp
      have hkeys : t ∉ res.map Prod.fst := by
        have hnodup : (q ++ (busyTargets pre ++ (t :: (busyTargets post ++ res.map Prod.fst)))).Nodup :=
          hp.nodup_iff.mpr hnd
        have h1 := (List.nodup_append.mp hnodup).2.1
        have h2 := (List.nodup_append.mp h1).2.1
        have h3 := (List.nodup_cons.mp h2).1
        intro hmem
        exact h3 (List.mem_append.mpr (Or.inr hmem))
      refine ⟨?_, ?_, ?_⟩
      · show (q ++ busyTargets (pre ++ WPhase.idle :: post) ++
            (dictInsert res t (worker_process (clk t) (net t))).map Prod.fst).Perm targets
        rw [dictInsert_of_not_mem res t _ hkeys]
        simp only [busyTargets_append, busyTargets_cons_idle, List.append_assoc,
          List.map_append, List.map_cons, List.map_nil]
        have h0 : (busyTargets post ++ (res.map Prod.fst ++ [t])).Perm
            (t :: (busyTargets post ++ res.map Prod.fst)) := by
          have := List.perm_append_singleton t (busyTargets post ++ res.map Prod.fst)
          simpa [List.append_assoc] using this
        have h1 := (h0.append_left (busyTargets pre)).append_left q
        have h2 : (q ++ (busyTargets pre ++ (busyTargets post ++ (res.map Prod.fst ++ [t])))).Perm
            (q ++ (busyTargets pre ++ (t :: (busyTargets post ++ res.map Prod.fst)))) := h1
        exact h2.trans hp
      · show ∀ p ∈ dictInsert res t (worker_process (clk t) (net t)), _
        rw [dictInsert_of_not_mem res t _ hkeys]
        intro p hpmem
        rcases List.mem_append.mp hpmem with h | h
        · exact hv p h
        · simp at h
          subst h
          rfl
      · intro hall
        exact absurd hall (not_allDone_of_mem_idle (by simp))

/-- Every reachable pool state satisfies the invariant. -/
theorem poolInv_reachable (net : String → NetOutcome) (clk : String → Nat)
    (targets : List String) (n : Nat) (hnd : targets.Nodup) (hn : 0 < n)
    {s : PoolState} (hr : Reachable net clk targets n s) :
    PoolInv net clk targets s := by
  induction hr with
  | refl => exact poolInv_init net clk targets n hn
  | tail hab hbc ih => exact poolInv_step net clk targets hnd ih hbc

instance decAllDone (ws : List WPhase) : Decidable (allDone ws) :=
  List.decidableBAll (fun w => w = WPhase.done) ws

/-- Lookup in an association list with unique keys finds the unique binding. -/
theorem lookup_eq_of_mem : ∀ (m : List (String × ScanResult)) (k : String) (v : ScanResult),
    (m.map Prod.fst).Nodup → (k, v) ∈ m → m.lookup k = some v := by
  intro m
  induction m with
  | nil => intro k v _ hmem; cases hmem
  | cons p rest ih =>
      intro k v hnd hmem
      obtain ⟨a, b⟩ := p
      have hnd2 : a ∉ rest.map Prod.fst ∧ (rest.map Prod.fst).Nodup := by
        simpa [List.nodup_cons] using hnd
      rcases List.mem_cons.mp hmem with h | h
      · rw [Prod.mk.injEq] at h
        obtain ⟨h1, h2⟩ := h
        subst h1
        subst h2
        simp [List.lookup]
      · have hk : k ≠ a := by
          intro he
          subst he
          exact hnd2.1 (List.mem_map.mpr ⟨(k, v), h, rfl⟩)
        have hba : (k == a) = false := beq_eq_false_iff_ne.mpr hk
        simp only [List.lookup, hba]
        exact ih k v hnd2.2 h

/-- Every enqueued target has a recorded binding once all workers have
exited. -/
theorem lookup_isSome_of_done (targets : List String) (net : String → NetOutcome)
    (clk : String → Nat) (n : Nat) (s : PoolState)
    (hnd : targets.Nodup) (hn : 0 < n) (hr : Reachable net clk targets n s)
    (hdone : allDone s.workers) :
    ∀ t ∈ targets, s.results.lookup t = some (worker_process (clk t) (net t)) := by
  obtain ⟨hp, hv, hq⟩ := poolInv_reachable net clk targets n hnd hn hr
  rw [hq hdone, busyTargets_of_allDone hdone] at hp
  simp only [List.nil_append] at hp
  intro t ht
  have hkmem : t ∈ s.results.map Prod.fst := hp.mem_iff.mpr ht
  obtain ⟨p, hpmem, hpk⟩ := List.mem_map.mp hkmem
  obtain ⟨a, b⟩ := p
  dsimp at hpk
  subst hpk
  have hval := hv (a, b) hpmem
  dsimp at hval
  subst hval
  exact lookup_eq_of_mem s.results a _ (hp.nodup_iff.mpr hnd) hpmem

/-- C1: for every non-empty sequence of unique targets enqueued before the
workers start, after all workers have exited the results map has exactly one
entry per enqueued target: the recorded keys are a permutation of the targets
(so none is missing and no foreign key appears) and contain no duplicates. -/
theorem C1_results_exactly_one_per_target (targets : List String)
    (net : String → NetOutcome) (clk : String → Nat) (n : Nat) (s : PoolState)
    (hne : targets ≠ []) (hnd : targets.Nodup) (hn : 0 < n)
    (hr : Reachable net clk targets n s) (hdone : allDone s.workers) :
    (s.results.map Prod.fst).Perm targets ∧ (s.results.map Prod.fst).Nodup := by
  obtain ⟨hp, _, hq⟩ := poolInv_reachable net clk targets n hnd hn hr
  rw [hq hdone, busyTargets_of_allDone hdone] at hp
  simp only [List.nil_append] at hp
  exact ⟨hp, hp.nodup_iff.mpr hnd⟩

/- ### Concrete executions of the pool (single worker, single target) -/

def tgt0 : String := "http://abc.onion"

def netRE : String → NetOutcome := fun _ => NetOutcome.requestError

def netRaise : String → NetOutcome := fun _ => NetOutcome.raised "boom"

def clk0 : String → Nat := fun _ => 0

def sMid : PoolState := ⟨[], [(tgt0, initResult 0)], [WPhase.idle]⟩

def sDone : PoolState := ⟨[], [(tgt0, initResult 0)], [WPhase.done]⟩

def sMidE : PoolState := ⟨[], [(tgt0, errorResult "boom")], [WPhase.idle]⟩

def sDoneE : PoolState := ⟨[], [(tgt0, errorResult "boom")], [WPhase.done]⟩

theorem reach_sMid : Reachable netRE clk0 [tgt0] 1 sMid := by
  have h1 : Step netRE clk0 (initState [tgt0] 1) ⟨[], [], [WPhase.busy tgt0]⟩ :=
    Step.pop tgt0 [] [] [] []
  have h2 : Step netRE clk0 ⟨[], [], [WPhase.busy tgt0]⟩ sMid :=
    Step.finish tgt0 [] [] [] []
  exact Relation.ReflTransGen.tail (Relation.ReflTransGen.tail Relation.ReflTransGen.refl h1) h2

theorem reach_sDone : Reachable netRE clk0 [tgt0] 1 sDone :=
  Relation.ReflTransGen.tail reach_sMid (Step.popEmpty [(tgt0, initResult 0)] [] [])

theorem reach_sMidE : Reachable netRaise clk0 [tgt0] 1 sMidE := by
  have h1 : Step netRaise clk0 (initState [tgt0] 1) ⟨[], [], [WPhase.busy tgt0]⟩ :=
    Step.pop tgt0 [] [] [] []
  have h2 : Step netRaise clk0 ⟨[], [], [WPhase.busy tgt0]⟩ sMidE :=
    Step.finish tgt0 [] [] [] []
  exact Relation.ReflTransGen.tail (Relation.ReflTransGen.tail Relation.ReflTransGen.refl h1) h2

theorem reach_sDoneE : Reachable netRaise clk0 [tgt0] 1 sDoneE :=
  Relation.ReflTransGen.tail reach_sMidE (Step.popEmpty [(tgt0, errorResult "boom")] [] [])

theorem C1_witness :
    (sDone.results.map Prod.fst).Perm [tgt0] ∧ (sDone.results.map Prod.fst).Nodup :=
  C1_results_exactly_one_per_target [tgt0] netRE clk0 1 sDone (by decide) (by decide)
    (by decide) reach_sDone (by decide)

/-- C5: a request-level failure (`requests.exceptions.RequestException`) makes
`_scan_domain` return — not raise — a result with status `inactive` and a null
response code, and in any completed pool run that result is what the results
map records for the target. -/
theorem C5_request_error_inactive :
    (∀ now : Nat, scan_domain now NetOutcome.requestError = Except.ok (initResult now) ∧
      (initResult now).status = "inactive" ∧ (initResult now).response_code = none) ∧
    (∀ (targets : List String) (net : String → NetOutcome) (clk : String → Nat)
      (n : Nat) (s : PoolState) (t : String), targets.Nodup → 0 < n →
      Reachable net clk targets n s → allDone s.workers → t ∈ targets →
      net t = NetOutcome.requestError →
      s.results.lookup t = some (initResult (clk t))) := by
  constructor
  · intro now
    exact ⟨rfl, rfl, rfl⟩
  · intro targets net clk n s t hnd hn hr hdone ht hreq
    have h := lookup_isSome_of_done targets net clk n s hnd hn hr hdone t ht
    rw [hreq] at h
    exact h

theorem C5_witness :
    (scan_domain 0 NetOutcome.requestError = Except.ok (initResult 0) ∧
      (initResult 0).status = "inactive" ∧ (initResult 0).response_code = none) ∧
    sDone.results.lookup tgt0 = some (initResult (clk0 tgt0)) :=
  ⟨C5_request_error_inactive.1 0,
   C5_request_error_inactive.2 [tgt0] netRE clk0 1 sDone tgt0 (by decide) (by decide)
     reach_sDone (by decide) (by decide) rfl⟩

/-- C6: when handling a target raises an unexpected (non-request) exception,
the worker boundary converts it into a recorded result with status `error`
whose message is the exception text, and every other enqueued target is still
processed (the exception stops no worker from draining the queue). -/
theorem C6_unexpected_error_recorded (targets : List String) (net : String → NetOutcome)
    (clk : String → Nat) (n : Nat) (s : PoolState) (t : String) (msg : String)
    (hnd : targets.Nodup) (hn : 0 < n) (hr : Reachable net clk targets n s)
    (hdone : allDone s.workers) (ht : t ∈ targets)
    (hex : scan_domain (clk t) (net t) = Except.error msg) :
    s.results.lookup t = some (errorResult msg) ∧
    (errorResult msg).status = "error" ∧ (errorResult msg).error = some msg ∧
    ∀ u ∈ targets, (s.results.lookup u).isSome = true := by
  have hall := lookup_isSome_of_done targets net clk n s hnd hn hr hdone
  refine ⟨?_, rfl, rfl, ?_⟩
  · have h := hall t ht
    rw [h]
    unfold worker_process
    rw [hex]
  · intro u hu
    rw [hall u hu]
    rfl

theorem C6_witness :
    sDoneE.results.lookup tgt0 = some (errorResult "boom") ∧
    (errorResult "boom").status = "error" ∧ (errorResult "boom").error = some "boom" ∧
    ∀ u ∈ [tgt0], (sDoneE.results.lookup u).isSome = true :=
  C6_unexpected_error_recorded [tgt0] netRaise clk0 1 sDoneE tgt0 "boom" (by decide)
    (by decide) reach_sDoneE (by decide) (by decide) rfl

/-- C8 as stated is false: the monitoring loop's exit condition can hold in a
reachable state in which a worker thread has not yet exited.  With one worker
and one target, after the worker records its result (state `sMid`) the loop
condition `processed < total_count` is already false — `completionCond` holds
— while the worker is still alive (idle, about to observe the empty queue). -/
theorem C8_counterexample :
    Reachable netRE clk0 [tgt0] 1 sMid ∧ completionCond 1 sMid ∧
      ¬ (sMid.queue = [] ∧ allDone sMid.workers) :=
  ⟨reach_sMid, Or.inl (by decide), by decide⟩

/-- C8 amended: in every reachable state of the pool (any worker count `n ≥ 1`,
any per-target network behaviour and latency interleaving), the monitoring
loop's completion condition holds if and only if the work queue is empty and
no worker is mid-scan — equivalently, every enqueued target has a recorded
result; worker threads may still be alive at that instant, but only idle ones
about to exit. -/
theorem C8_completion_iff (targets : List String) (net : String → NetOutcome)
    (clk : String → Nat) (n : Nat) (s : PoolState)
    (hnd : targets.Nodup) (hn : 0 < n) (hr : Reachable net clk targets n s) :
    completionCond targets.length s ↔ (s.queue = [] ∧ busyTargets s.workers = []) := by
  obtain ⟨hp, _, hq⟩ := poolInv_reachable net clk targets n hnd hn hr
  have hlen := hp.length_eq
  simp only [List.length_append, List.length_map] at hlen
  constructor
  · rintro (h | ⟨h1, h2⟩)
    · constructor
      · have : s.queue.length = 0 := by omega
        exact List.length_eq_zero.mp this
      · have : (busyTargets s.workers).length = 0 := by omega
        exact List.length_eq_zero.mp this
    · exact ⟨h1, busyTargets_of_allDone h2⟩
  · rintro ⟨h1, h2⟩
    left
    rw [h1, h2] at hlen
    simp only [List.length_nil] at hlen
    omega

theorem C8_witness :
    completionCond 1 sDone ↔ (sDone.queue = [] ∧ busyTargets sDone.workers = []) :=
  C8_completion_iff [tgt0] netRE clk0 1 sDone (by decide) (by decide) reach_sDone

/-- C2: a line is enqueued by `_load_onion_domains` iff, stripped of
surrounding whitespace, it is non-empty and ends with `.onion`; for the input
file with lines `abc.onion`, blank, `def.onion`, the loaded target count is 2
and the queue holds exactly those 2 targets before any worker starts. -/
theorem C2_line_filter :
    (∀ line : String,
      (processLine line).isSome = true ↔
        (pyStrip line ≠ "" ∧ pyEndsWith (pyStrip line) ".onion" = true)) ∧
    (start_setup (some ["abc.onion", "", "def.onion"]) 10).totalCount = 2 ∧
    (start_setup (some ["abc.onion", "", "def.onion"]) 10).queued =
      ["http://abc.onion", "http://def.onion"] := by
  refine ⟨?_, by decide, by decide⟩
  intro line
  by_cases h : (pyStrip line ≠ "" ∧ pyEndsWith (pyStrip line) ".onion" = true)
  · simp [processLine, h]
  · simp [processLine, h]

theorem C2_witness :
    ((processLine "abc.onion").isSome = true ↔
      (pyStrip "abc.onion" ≠ "" ∧ pyEndsWith (pyStrip "abc.onion") ".onion" = true)) ∧
    (start_setup (some ["abc.onion", "", "def.onion"]) 10).totalCount = 2 ∧
    (start_setup (some ["abc.onion", "", "def.onion"]) 10).queued =
      ["http://abc.onion", "http://def.onion"] :=
  ⟨C2_line_filter.1 "abc.onion", C2_line_filter.2⟩

/-- Specification-side reading of a line that already carries a URL scheme
prefix: it starts with the default scheme `http://` or its TLS variant
`https://`. -/
def hasURLScheme (s : String) : Bool :=
  pyStartsWith s "http://" || pyStartsWith s "https://"

/-- C3 as stated is false: an accepted line that carries no URL scheme but
happens to begin with the letters `http` (a legal beginning for a bare onion
hostname) is enqueued unchanged instead of being prefixed with the default
scheme. -/
theorem C3_counterexample :
    hasURLScheme "httpabc.onion" = false ∧
    processLine "httpabc.onion" = some "httpabc.onion" ∧
    ("httpabc.onion" : String) ≠ "http://httpabc.onion" :=
  ⟨by decide, by decide, by decide⟩

theorem startsWith_http_of_scheme (s : String) (h : hasURLScheme s = true) :
    pyStartsWith s "http" = true := by
  unfold hasURLScheme at h
  unfold pyStartsWith at h ⊢
  have hh : "http".data <+: "http://".data :=
    List.isPrefixOf_iff_prefix.mp (by decide)
  have hhs : "http".data <+: "https://".data :=
    List.isPrefixOf_iff_prefix.mp (by decide)
  rw [Bool.or_eq_true] at h
  rcases h with h1 | h1
  · exact List.isPrefixOf_iff_prefix.mpr (hh.trans (List.isPrefixOf_iff_prefix.mp h1))
  · exact List.isPrefixOf_iff_prefix.mpr (hhs.trans (List.isPrefixOf_iff_prefix.mp h1))

/-- C3 amended: the code decides prefixing by `startswith('http')`: an
accepted line whose stripped form does not start with `http` is enqueued as
`http://` plus the stripped line, and a stripped line starting with `http` —
in particular one already carrying an `http://` or `https://` scheme — is
enqueued unchanged. -/
theorem C3_scheme_prefixing (line d : String) (hd : processLine line = some d) :
    (pyStartsWith (pyStrip line) "http" = false → d = "http://" ++ pyStrip line) ∧
    (pyStartsWith (pyStrip line) "http" = true → d = pyStrip line) ∧
    (hasURLScheme (pyStrip line) = true → d = pyStrip line) := by
  by_cases h : (pyStrip line ≠ "" ∧ pyEndsWith (pyStrip line) ".onion" = true)
  · simp only [processLine, if_pos h, Option.some.injEq] at hd
    refine ⟨?_, ?_, ?_⟩
    · intro hs
      rw [← hd, if_neg]
      simp [hs]
    · intro hs
      rw [← hd, if_pos hs]
    · intro hs
      rw [← hd, if_pos (startsWith_http_of_scheme _ hs)]
  · simp only [processLine, if_neg h] at hd
    cases hd

theorem C3_witness :
    (pyStartsWith (pyStrip "abc.onion") "http" = false →
      "http://abc.onion" = "http://" ++ pyStrip "abc.onion") ∧
    (pyStartsWith (pyStrip "abc.onion") "http" = true →
      "http://abc.onion" = pyStrip "abc.onion") ∧
    (hasURLScheme (pyStrip "abc.onion") = true →
      "http://abc.onion" = pyStrip "abc.onion") :=
  C3_scheme_prefixing "abc.onion" "http://abc.onion" (by decide)

/-- C4: an HTTP 200 response with an HTML content type yields an `active`
result whose title is non-null: the stripped text of the title tag when one
exists, the placeholder `No title` otherwise. -/
theorem C4_html_200_active (now : Nat) (server ct : Option String)
    (rawTitle : Option String) (nLinks : Nat)
    (hct : strIn "text/html" (ct.getD "Unknown") = true) :
    ∃ r, scan_domain now (NetOutcome.ok 200 server ct (ParseOutcome.ok rawTitle nLinks)) =
        Except.ok r ∧
      r.status = "active" ∧ r.title ≠ none ∧ r.response_code = some 200 ∧
      r.title = some (match rawTitle with
                      | some t => pyStrip t
                      | none => "No title") := by
  simp only [scan_domain, hct, if_true]
  exact ⟨_, rfl, rfl, by simp, rfl, rfl⟩

theorem C4_witness :
    strIn "text/html" ((some "text/html").getD "Unknown") = true ∧
    ∃ r, scan_domain 7 (NetOutcome.ok 200 none (some "text/html")
        (ParseOutcome.ok (some "  Hello  ") 3)) = Except.ok r ∧
      r.status = "active" ∧ r.title ≠ none ∧ r.response_code = some 200 ∧
      r.title = some (match (some "  Hello  " : Option String) with
                      | some t => pyStrip t
                      | none => "No title") :=
  ⟨by decide, C4_html_200_active 7 none (some "text/html") (some "  Hello  ") 3 (by decide)⟩

/-- C7: a missing input file is the unique fatal failure: `start` then returns
`False` with no worker threads started and an empty results map, and whenever
the file exists the setup phase succeeds (no other abort path). -/
theorem C7_missing_file_only_fatal (threads : Nat) (file : Option (List String)) :
    ((start_setup none threads).ok = false ∧
      (start_setup none threads).workersStarted = 0 ∧
      (start_setup none threads).results = []) ∧
    ((start_setup file threads).ok = false ↔ file = none) := by
  refine ⟨⟨rfl, rfl, rfl⟩, ?_⟩
  cases file <;> simp [start_setup]

theorem C7_witness :
    ((start_setup none 10).ok = false ∧ (start_setup none 10).workersStarted = 0 ∧
      (start_setup none 10).results = []) ∧
    ((start_setup none 10).ok = false ↔ (none : Option (List String)) = none) :=
  C7_missing_file_only_fatal 10 none

/-- C10: any received HTTP response — whatever its status code, 404 and 500
included — is classified `active` with that code recorded; an `inactive`
result arises exactly from a request-level failure, never from the value of
the status code. -/
theorem C10_any_response_active :
    (∀ (now code : Nat) (server ct : Option String) (rawTitle : Option String) (nLinks : Nat),
      ∃ r, scan_domain now (NetOutcome.ok code server ct (ParseOutcome.ok rawTitle nLinks)) =
          Except.ok r ∧ r.status = "active" ∧ r.response_code = some code) ∧
    (∀ (now : Nat) (net : NetOutcome) (r : ScanResult),
      scan_domain now net = Except.ok r →
      (r.status = "inactive" ↔ net = NetOutcome.requestError)) := by
  constructor
  · intro now code server ct rawTitle nLinks
    cases hb : strIn "text/html" (ct.getD "Unknown") with
    | true =>
        simp only [scan_domain, hb, if_true]
        exact ⟨_, rfl, rfl, rfl⟩
    | false =>
        simp only [scan_domain, hb]
        exact ⟨_, rfl, rfl, rfl⟩
  · intro now net r h
    cases net with
    | ok code server ct parse =>
        have hact : r.status = "active" := by
          cases parse with
          | ok rt nl =>
              simp only [scan_domain] at h
              split at h
              · simp only [Except.ok.injEq] at h
                rw [← h]
              · simp only [Except.ok.injEq] at h
                rw [← h]
          | fail m =>
              simp only [scan_domain] at h
              split at h
              · exact Except.noConfusion h
              · simp only [Except.ok.injEq] at h
                rw [← h]
        constructor
        · intro hst
          rw [hact] at hst
          exact absurd hst (by decide)
        · intro hnet
          exact NetOutcome.noConfusion hnet
    | requestError =>
        simp only [scan_domain, Except.ok.injEq] at h
        subst h
        exact ⟨fun _ => rfl, fun _ => rfl⟩
    | raised msg => exact Except.noConfusion h

theorem C10_witness :
    (∃ r, scan_domain 0 (NetOutcome.ok 404 none none (ParseOutcome.ok none 0)) =
        Except.ok r ∧ r.status = "active" ∧ r.response_code = some 404) ∧
    ((initResult 0).status = "inactive" ↔ NetOutcome.requestError = NetOutcome.requestError) :=
  ⟨C10_any_response_active.1 0 404 none none none 0,
   C10_any_response_active.2 0 NetOutcome.requestError (initResult 0) rfl⟩

/- ### `_save_results` -/

/-- String rendering of an optional integer the way Python prints it. -/
def optNatStr : Option Nat → String
  | none => "None"
  | some n => toString n

/-- String rendering of an optional string the way Python prints it. -/
def optStr : Option String → String
  | none => "None"
  | some s => s

/-- Key order used by Python `sorted(self.results.items())`: with unique
domain keys the tuple comparison is decided by the domain alone
(lexicographically, by code point). -/
def keyLE (a b : String × ScanResult) : Prop := a.1.data ≤ b.1.data

instance : DecidableRel keyLE := fun a b =>
  inferInstanceAs (Decidable (a.1.data ≤ b.1.data))

instance : IsTotal (String × ScanResult) keyLE :=
  ⟨fun a b => le_total a.1.data b.1.data⟩

instance : IsTrans (String × ScanResult) keyLE :=
  ⟨fun _ _ _ h1 h2 => le_trans h1 h2⟩

/-- The sorted item sequence `sorted(self.results.items())`. -/
def sortedItems (m : List (String × ScanResult)) : List (String × ScanResult) :=
  List.insertionSort keyLE m

/-- Lines written for one active target. -/
def activeEntry (p : String × ScanResult) : List String :=
  ["URL: " ++ p.1,
   "Response Code: " ++ optNatStr p.2.response_code,
   "Title: " ++ optStr p.2.title,
   "Server: " ++ optStr p.2.server,
   "Content Type: " ++ optStr p.2.content_type,
   "Links: " ++ toString p.2.links,
   ""]

/-- Line written for one inactive target. -/
def inactiveEntry (p : String × ScanResult) : List String :=
  ["URL: " ++ p.1]

/-- Modelled from the spec: the source file ends abruptly inside the
error-status loop of `_save_results` (its last line is
`if result['status'] ==`), so the body of that loop is missing from the
repository; following the spec's stated inference, the completion simply
lists each error-status target and its captured error message. -/
def errorEntry (p : String × ScanResult) : List String :=
  ["URL: " ++ p.1, "Error: " ++ optStr p.2.error]

/-- Header lines of the report (total count, active count, wall-clock time
rendered as a string). -/
def headerLines (total activeN : Nat) (now : String) : List String :=
  ["# Onion Service Scan Results",
   "# Total scanned: " ++ toString total,
   "# Active: " ++ toString activeN,
   "# Scan time: " ++ now,
   ""]

/-- One status section's body: the loop `for domain, result in sorted(...)`
emitting `entry` for exactly the items whose final status is `st`. -/
def statusLines (st : String) (entry : String × ScanResult → List String)
    (items : List (String × ScanResult)) : List String :=
  items.flatMap (fun p => if p.2.status == st then entry p else [])

/-- Embedding of `_save_results`: the report as the list of written lines. -/
def save_results (total activeN : Nat) (now : String)
    (results : List (String × ScanResult)) : List String :=
  headerLines total activeN now ++
  (["## Active Sites", ""] ++ statusLines "active" activeEntry (sortedItems results) ++
  (["## Inactive Sites", ""] ++ statusLines "inactive" inactiveEntry (sortedItems results) ++
  (["## Error Sites", ""] ++ statusLines "error" errorEntry (sortedItems results))))

/-- Specification-side description of one status group: the results whose
final status is `st`, sorted by target. -/
def statusGroup (m : List (String × ScanResult)) (st : String) :
    List (String × ScanResult) :=
  List.insertionSort keyLE (m.filter (fun p => p.2.status == st))

theorem statusLines_eq (st : String) (entry : String × ScanResult → List String) :
    ∀ items : List (String × ScanResult),
      statusLines st entry items =
        (items.filter (fun p => p.2.status == st)).flatMap entry := by
  intro items
  induction items with
  | nil => rfl
  | cons a l ih =>
      simp only [statusLines, List.flatMap_cons, List.filter_cons] at ih ⊢
      by_cases h : (a.2.status == st) = true
      · rw [if_pos h, if_pos h, List.flatMap_cons, ih]
      · rw [if_neg h, if_neg h, List.nil_append, ih]

/-- Strict key order, used to identify equally sorted permutations. -/
def keyLT (a b : String × ScanResult) : Prop := a.1.data < b.1.data

instance : IsAntisymm (String × ScanResult) keyLT :=
  ⟨fun _ _ h1 h2 => absurd h2 (lt_asymm h1)⟩

theorem string_eq_of_data_eq {a b : String} (h : a.data = b.data) : a = b := by
  cases a
  cases b
  exact congrArg String.mk h

theorem sorted_keyLT_of_sorted_keyLE {l : List (String × ScanResult)}
    (hs : List.Sorted keyLE l) (hnd : (l.map Prod.fst).Nodup) :
    List.Sorted keyLT l := by
  have hpw : List.Pairwise (fun a b : String × ScanResult => a.1 ≠ b.1) l :=
    List.pairwise_map.mp hnd
  exact (List.Pairwise.and hs hpw).imp
    (fun hab => lt_of_le_of_ne hab.1 (fun hd => hab.2 (string_eq_of_data_eq hd)))

theorem filter_insertionSort_comm (c : String × ScanResult → Bool)
    (m : List (String × ScanResult)) (hnd : (m.map Prod.fst).Nodup) :
    (List.insertionSort keyLE m).filter c = List.insertionSort keyLE (m.filter c) := by
  have hs1 : List.Sorted keyLE ((List.insertionSort keyLE m).filter c) :=
    List.Pairwise.sublist (List.filter_sublist _) (List.sorted_insertionSort keyLE m)
  have hs2 : List.Sorted keyLE (List.insertionSort keyLE (m.filter c)) :=
    List.sorted_insertionSort keyLE _
  have hperm : ((List.insertionSort keyLE m).filter c).Perm
      (List.insertionSort keyLE (m.filter c)) :=
    ((List.perm_insertionSort keyLE m).filter c).trans
      (List.perm_insertionSort keyLE (m.filter c)).symm
  have hnd1 : (((List.insertionSort keyLE m).filter c).map Prod.fst).Nodup := by
    have h2 := (List.perm_insertionSort keyLE m).map Prod.fst
    exact List.Nodup.sublist ((List.filter_sublist _).map Prod.fst) (h2.nodup_iff.mpr hnd)
  have hnd2 : ((List.insertionSort keyLE (m.filter c)).map Prod.fst).Nodup := by
    have h1 : ((m.filter c).map Prod.fst).Nodup :=
      List.Nodup.sublist ((List.filter_sublist _).map Prod.fst) hnd
    exact ((List.perm_insertionSort keyLE (m.filter c)).map Prod.fst).nodup_iff.mpr h1
  exact List.eq_of_perm_of_sorted hperm
    (sorted_keyLT_of_sorted_keyLE hs1 hnd1) (sorted_keyLT_of_sorted_keyLE hs2 hnd2)

/-- C9: the report groups targets by final status in the order active, then
inactive, then error, each group sorted by target, listing for each active
target its response code, page title, server header, content type and link
count (the truncated error-group loop is completed from the spec as the list
of error-status targets with their captured messages). -/
theorem C9_report_grouped (total activeN : Nat) (now : String)
    (m : List (String × ScanResult)) (hnd : (m.map Prod.fst).Nodup) :
    save_results total activeN now m =
      headerLines total activeN now ++
      (["## Active Sites", ""] ++ (statusGroup m "active").flatMap activeEntry ++
      (["## Inactive Sites", ""] ++ (statusGroup m "inactive").flatMap inactiveEntry ++
      (["## Error Sites", ""] ++ (statusGroup m "error").flatMap errorEntry))) ∧
    (∀ st : String, List.Sorted keyLE (statusGroup m st)) ∧
    (∀ st : String, (statusGroup m st).Perm
      (m.filter (fun p => p.2.status == st))) := by
  refine ⟨?_, fun st => List.sorted_insertionSort keyLE _,
    fun st => List.perm_insertionSort keyLE _⟩
  unfold save_results statusGroup sortedItems
  rw [statusLines_eq, statusLines_eq, statusLines_eq,
    filter_insertionSort_comm _ m hnd, filter_insertionSort_comm _ m hnd,
    filter_insertionSort_comm _ m hnd]

def demoResults : List (String × ScanResult) :=
  [("http://b.onion", initResult 0),
   ("http://a.onion", { initResult 0 with status := "active", response_code := some 200 }),
   ("http://c.onion", errorResult "boom")]

theorem C9_witness :
    (save_results 3 1 "2026-10-12" demoResults =
      headerLines 3 1 "2026-10-12" ++
      (["## Active Sites", ""] ++ (statusGroup demoResults "active").flatMap activeEntry ++
      (["## Inactive Sites", ""] ++ (statusGroup demoResults "inactive").flatMap inactiveEntry ++
      (["## Error Sites", ""] ++ (statusGroup demoResults "error").flatMap errorEntry)))) ∧
    (∀ st : String, List.Sorted keyLE (statusGroup demoResults st)) ∧
    (∀ st : String, (statusGroup demoResults st).Perm
      (demoResults.filter (fun p => p.2.status == st))) :=
  C9_report_grouped 3 1 "2026-10-12" demoResults (by decide)
